import Mathlib

/-
Verification development for the vault-navigator client/cache/search core.

The definitions below are a shallow embedding of:
  * src/lib/utils/vault-path-utils.ts  (VaultPathUtils)
  * the generic TTL cache class VaultCache (src/unnamed/part_008)
  * src/lib/vault-client.ts            (VaultClient)

Strings are modelled as Lean `String` (lists of characters); JavaScript
string helpers (startsWith, substring, split, join, replace, includes,
toLowerCase) are re-implemented character-by-character so that every
definition is executable by the kernel.  Time (`Date.now()`) is passed as
an explicit `now : Nat` argument.  The wire transport (axios through the
proxy) is modelled as a function-valued record `Wire`; an axios failure
carries the HTTP status, the parsed `errors` body and the axios message.
-/

namespace VaultNav

/-- JS `a.startsWith(b)` on character lists: `isPreL pre s` is true iff
`pre` is a literal leading segment of `s`. -/
def isPreL : List Char → List Char → Bool
  | [], _ => true
  | _ :: _, [] => false
  | a :: as, b :: bs => decide (a = b) && isPreL as bs

/-- Helper for JS `hay.includes(needle)`: true iff `needle` occurs
contiguously anywhere in `hay`. -/
def hasInfixL (n : List Char) : List Char → Bool
  | [] => isPreL n []
  | c :: rest => isPreL n (c :: rest) || hasInfixL n rest

/-- JS `hay.includes(needle)` on strings. -/
def containsSub (hay needle : String) : Bool :=
  hasInfixL needle.data hay.data

/-- JS `s.toLowerCase()` (per-character lowering). -/
def lowerStr (s : String) : String :=
  String.mk (s.data.map Char.toLower)

/-- JS `s.split("/")` on character lists. -/
def splitSlash : List Char → List (List Char)
  | [] => [[]]
  | c :: rest =>
    match splitSlash rest with
    | [] => if c = '/' then [[], []] else [[c]]
    | h :: t => if c = '/' then [] :: h :: t else (c :: h) :: t

/-- One step of JS `replace(/\/+/g, "/")`: collapse runs of slashes. -/
def collapseSlashes : List Char → List Char
  | [] => []
  | [c] => [c]
  | c :: d :: rest =>
    if c = '/' ∧ d = '/' then collapseSlashes (d :: rest)
    else c :: collapseSlashes (d :: rest)

/-- JS `replace(/\/$/, "")`: drop a single trailing slash if present. -/
def dropTrailingSlash (l : List Char) : List Char :=
  match l.getLast? with
  | some '/' => l.dropLast
  | _ => l

/-- VAULT_CONFIG.DEFAULT_MOUNT (src/lib/constants/index.ts). -/
def DEFAULT_MOUNT : String := "secret"

/-- VAULT_CONFIG.CACHE_TTL.LIST = 5 minutes in milliseconds. -/
def LIST_TTL : Nat := 5 * 60 * 1000

/-- VAULT_CONFIG.CACHE_TTL.SECRET = 2 minutes in milliseconds. -/
def SECRET_TTL : Nat := 2 * 60 * 1000

/-- VaultPathUtils.cleanSecretPath: remove the leading "secret/" mount
segment if present (`path.startsWith` / `path.substring`). -/
def cleanSecretPath (p : String) : String :=
  if isPreL (DEFAULT_MOUNT ++ "/").data p.data then
    String.mk (p.data.drop (DEFAULT_MOUNT.data.length + 1))
  else p

/-- VaultPathUtils.buildSecretUrl: `/v1/secret/<segment>/<cleanPath>`. -/
def buildSecretUrl (p seg : String) : String :=
  "/v1/" ++ DEFAULT_MOUNT ++ "/" ++ seg ++ "/" ++ cleanSecretPath p

/-- VaultPathUtils.buildListUrl. -/
def buildListUrl (p : String) : String :=
  if decide (p = "") || decide (p = DEFAULT_MOUNT) then
    "/v1/" ++ DEFAULT_MOUNT ++ "/metadata"
  else if isPreL (DEFAULT_MOUNT ++ "/").data p.data then
    "/v1/" ++ DEFAULT_MOUNT ++ "/metadata/" ++
      String.mk (p.data.drop (DEFAULT_MOUNT.data.length + 1))
  else
    "/v1/" ++ DEFAULT_MOUNT ++ "/metadata/" ++ p

/-- The effective namespace of a cache key: JS `namespace || "root"`, so
both an absent namespace and the (falsy) empty string render as "root". -/
def effNamespace : Option String → String
  | none => "root"
  | some s => if s = "" then "root" else s

/-- VaultPathUtils.buildCacheKey: `` `${prefix}:${path}:${namespace || "root"}` ``. -/
def buildCacheKey (pre path : String) (ns : Option String) : String :=
  pre ++ ":" ++ path ++ ":" ++ effNamespace ns

/-- VaultPathUtils.extractParentPath: `path.split("/").slice(0,-1).join("/")`. -/
def extractParentPath (p : String) : String :=
  String.mk (List.intercalate ['/'] (splitSlash p.data).dropLast)

/-- VaultPathUtils.normalizePath: collapse repeated slashes, then strip a
trailing slash. -/
def normalizePath (p : String) : String :=
  String.mk (dropTrailingSlash (collapseSlashes p.data))

/-- VaultPathUtils.joinPaths: drop empty (falsy) segments, join with "/",
normalize. -/
def joinPaths (segs : List String) : String :=
  normalizePath
    (String.mk (List.intercalate ['/']
      ((segs.filter (fun s => !decide (s = ""))).map String.data)))

/-! ### VaultCache (src/unnamed/part_008)

The JS `Map<string, CacheEntry<T>>` is modelled as an association list
with unique semantics given by first-match lookup; `set` removes the old
binding and prepends the new one, `delete` removes the binding. -/

/-- CacheEntry<T> of the cache service: value, `Date.now()` at store
time, and the entry's TTL in milliseconds. -/
structure CEntry (T : Type) where
  data : T
  timestamp : Nat
  ttl : Nat
  deriving DecidableEq

/-- The cache's backing map. -/
abbrev CMap (T : Type) := List (String × CEntry T)

/-- JS `Map.get` on the backing map (first binding of the key). -/
def mapFind {T : Type} (k : String) : CMap T → Option (CEntry T)
  | [] => none
  | kv :: rest => if kv.1 = k then some kv.2 else mapFind k rest

/-- JS `Map.delete` on the backing map. -/
def mapDelete {T : Type} (k : String) (m : CMap T) : CMap T :=
  m.filter (fun kv => !decide (kv.1 = k))

/-- JS `Map.set` on the backing map. -/
def mapSet {T : Type} (k : String) (e : CEntry T) (m : CMap T) : CMap T :=
  (k, e) :: mapDelete k m

/-- VaultCache.isExpired: `Date.now() - entry.timestamp > entry.ttl`
(strict inequality: an entry whose age equals its TTL is still live). -/
def isExpired {T : Type} (now : Nat) (e : CEntry T) : Bool :=
  decide (e.ttl < now - e.timestamp)

/-- VaultCache.get: return the live value; delete and miss when the
entry has expired. -/
def cacheGet {T : Type} (now : Nat) (k : String) (m : CMap T) :
    Option T × CMap T :=
  match mapFind k m with
  | none => (none, m)
  | some e =>
    if isExpired now e then (none, mapDelete k m) else (some e.data, m)

/-- VaultCache.set: always overwrite, recording `timestamp := now` and
`ttl := ttl ?? config.defaultTTL`. -/
def cacheSet {T : Type} (now : Nat) (k : String) (v : T)
    (ttlArg : Option Nat) (defaultTTL : Nat) (m : CMap T) : CMap T :=
  mapSet k ⟨v, now, ttlArg.getD defaultTTL⟩ m

/-- VaultCache.has: same liveness semantics as get, without the value. -/
def cacheHas {T : Type} (now : Nat) (k : String) (m : CMap T) :
    Bool × CMap T :=
  match mapFind k m with
  | none => (false, m)
  | some e =>
    if isExpired now e then (false, mapDelete k m) else (true, m)

/-- VaultCache.invalidate. -/
def cacheInvalidate {T : Type} (k : String) (m : CMap T) : CMap T :=
  mapDelete k m

/-- VaultCache.clear. -/
def cacheClear (T : Type) : CMap T := []

/-- VaultCache.size. -/
def cacheSize {T : Type} (m : CMap T) : Nat := m.length

/-- VaultCache.keys. -/
def cacheKeys {T : Type} (m : CMap T) : List String := m.map (·.1)

/-- VaultCache.purgeExpired: sweep every expired entry, returning the
number removed together with the swept map. -/
def purgeExpired {T : Type} (now : Nat) (m : CMap T) : Nat × CMap T :=
  ((m.filter (fun kv => isExpired now kv.2)).length,
   m.filter (fun kv => !isExpired now kv.2))

/-! ### Model of `new RegExp("^" + pattern)` / `regex.test(key)`

`invalidatePattern` compiles a plain-string pattern with
`new RegExp("^" + pattern)` and deletes every key the regex matches.
The fragment of ECMAScript regex construction modelled here covers
literal characters, the wildcard '.', backslash escapes of single
characters, and plain (non-capturing-relevant) groups.  Within this
fragment compilation fails (`none`) exactly where `new RegExp` throws a
SyntaxError: an unterminated group, an unmatched ')', or a trailing
backslash.  Quantifiers, character classes, alternation and anchors are
outside the modelled fragment and compilation is left undefined (`none`)
for them; no theorem below depends on such patterns. -/

/-- A compiled regex token: a literal character or the wildcard '.'. -/
inductive RTok where
  | lit (c : Char)
  | dot
  deriving DecidableEq

/-- The ECMAScript regex metacharacters (syntax characters plus '\'). -/
def regexMeta (c : Char) : Bool :=
  decide (c = '\\') || decide (c = '.') || decide (c = '(') ||
  decide (c = ')') || decide (c = '[') || decide (c = ']') ||
  decide (c = '\x7b') || decide (c = '\x7d') || decide (c = '*') ||
  decide (c = '+') || decide (c = '?') || decide (c = '|') ||
  decide (c = '^') || decide (c = '$')

/-- Compile the modelled regex fragment.  `depth` counts open groups and
`esc` records a pending backslash. -/
def compileToks : List Char → Nat → Bool → Option (List RTok)
  | [], _, true => none
  | [], d, false => if d = 0 then some [] else none
  | c :: rest, d, true => (compileToks rest d false).map (RTok.lit c :: ·)
  | c :: rest, d, false =>
    if c = '\\' then compileToks rest d true
    else if c = '.' then (compileToks rest d false).map (RTok.dot :: ·)
    else if c = '(' then compileToks rest (d + 1) false
    else if c = ')' then
      (if d = 0 then none else compileToks rest (d - 1) false)
    else if regexMeta c then none
    else (compileToks rest d false).map (RTok.lit c :: ·)

/-- Model of `new RegExp("^" + pattern)` for a plain-string pattern: the
anchor is represented by the match-at-start semantics of `matchToks`
below. -/
def ecmaCompile (pattern : String) : Option (List RTok) :=
  compileToks pattern.data 0 false

/-- One token against one character ('.' matches every character; the
'.'-excludes-newline detail is irrelevant to the keys at hand). -/
def rtokMatches : RTok → Char → Bool
  | RTok.dot, _ => true
  | RTok.lit c, a => decide (c = a)

/-- Semantics of `regex.test(key)` for the compiled "^"-anchored pattern:
the tokens must consume a leading segment of the key. -/
def matchToks : List RTok → List Char → Bool
  | [], _ => true
  | _ :: _, [] => false
  | t :: ts, c :: cs => rtokMatches t c && matchToks ts cs

/-- VaultCache.invalidatePattern for a plain-string pattern: compile
`new RegExp("^" + pattern)` (a thrown SyntaxError is `none`), then delete
every key the regex matches. -/
def cacheInvalidatePattern {T : Type} (pattern : String) (m : CMap T) :
    Option (CMap T) :=
  match ecmaCompile pattern with
  | none => none
  | some toks => some (m.filter (fun kv => !matchToks toks kv.1.data))

/-- A pattern made only of plain characters (no regex metacharacter). -/
def plainPattern (pattern : String) : Bool :=
  pattern.data.all (fun c => !regexMeta c)

/-! ### VaultClient (src/lib/vault-client.ts)

The axios transport behind the Next.js proxy is a record of response
functions, one per wire-call family.  A failed call yields an
`AxiosFailure` carrying the HTTP status, the parsed `errors` array of the
response body (when a body was parseable) and the axios error message
(for an HTTP error axios's message is "Request failed with status code
N").  Successful responses are delivered already unwrapped: `list` gives
`response.data?.data?.keys || []`, `read` gives the
`response.data?.data?.data || {}` payload and the optional metadata. -/

/-- A secret's data payload (`Record<string, unknown>` restricted to the
string-valued records every claim needs). -/
abbrev SecretData := List (String × String)

/-- The error shape of a failed axios call. -/
structure AxiosFailure where
  status : Option Nat
  bodyErrors : Option (List String)
  message : String
  deriving DecidableEq

/-- VaultError (src/lib/types.ts): message plus the server's errors. -/
structure VaultError where
  message : String
  errors : Option (List String)
  deriving DecidableEq

/-- VaultClient.handleError:
`message = response?.data?.errors?.[0] || axiosError.message`
(an empty first error string is falsy and also falls back). -/
def handleError (e : AxiosFailure) : VaultError :=
  { message :=
      match e.bodyErrors with
      | some (m :: _) => if m = "" then e.message else m
      | _ => e.message,
    errors := e.bodyErrors }

/-- Secret (src/lib/types.ts): path, data and optional metadata. -/
structure Secret where
  path : String
  data : SecretData
  metadata : Option String
  deriving DecidableEq

/-- SecretListItem (src/lib/types.ts). -/
structure SItem where
  name : String
  path : String
  isFolder : Bool
  deriving DecidableEq

/-- The wire calls the client can issue (the URL identifies the target). -/
inductive WireCall where
  | list (url : String)
  | readS (url : String)
  | write (url : String)
  | del (url : String)
  deriving DecidableEq

/-- The wire: responses of the external store, per call family. -/
structure Wire where
  list : String → Except AxiosFailure (List String)
  read : String → Except AxiosFailure (SecretData × Option String)
  write : String → SecretData → Except AxiosFailure Unit
  del : String → Except AxiosFailure Unit

/-- The VaultClient state: the (mutable) namespace of the connection
configuration, the listing cache and the secret-value cache. -/
structure ClientSt where
  ns : Option String
  listC : CMap (List SItem)
  secC : CMap Secret
  deriving DecidableEq

/-- VaultClient.listSecrets.  Returns the result (or thrown VaultError),
the updated client state and the wire calls issued.  On a cache hit no
wire call is made; on a miss the LIST call is issued, the keys are
classified by trailing slash and the result is cached; a failure whose
derived message contains "404" is absorbed into an empty result. -/
def listSecretsOp (w : Wire) (now : Nat) (path : String) (st : ClientSt) :
    Except VaultError (List SItem) × ClientSt × List WireCall :=
  let cacheKey := buildCacheKey "list" path st.ns
  match cacheGet now cacheKey st.listC with
  | (some v, c) => (Except.ok v, { st with listC := c }, [])
  | (none, c) =>
    let url := buildListUrl path
    match w.list url with
    | Except.ok keys =>
      let basePath :=
        if !decide (path = "") && !decide (path = DEFAULT_MOUNT) then path
        else ""
      let results := keys.map (fun key =>
        { name := String.mk (dropTrailingSlash key.data),
          path := if !decide (basePath = "") then joinPaths [basePath, key]
                  else key,
          isFolder :=
            match key.data.getLast? with
            | some '/' => true
            | _ => false : SItem })
      (Except.ok results,
       { st with listC := cacheSet now cacheKey results none LIST_TTL c },
       [WireCall.list url])
    | Except.error e =>
      let ve := handleError e
      if containsSub ve.message "404" then
        (Except.ok [], { st with listC := c }, [WireCall.list url])
      else
        (Except.error ve, { st with listC := c }, [WireCall.list url])

/-- VaultClient.readSecret: cache-first; on a miss fetch the data URL,
wrap the payload as a Secret, cache it; failures propagate through
handleError. -/
def readSecretOp (w : Wire) (now : Nat) (path : String) (st : ClientSt) :
    Except VaultError Secret × ClientSt × List WireCall :=
  let cacheKey := buildCacheKey "secret" path st.ns
  match cacheGet now cacheKey st.secC with
  | (some v, c) => (Except.ok v, { st with secC := c }, [])
  | (none, c) =>
    let url := buildSecretUrl path "data"
    match w.read url with
    | Except.ok payload =>
      let result : Secret := ⟨path, payload.1, payload.2⟩
      (Except.ok result,
       { st with secC := cacheSet now cacheKey result none SECRET_TTL c },
       [WireCall.readS url])
    | Except.error e =>
      (Except.error (handleError e), { st with secC := c },
       [WireCall.readS url])

/-- VaultClient.writeSecret: POST the data URL; on success invalidate the
secret's own value-cache entry and the parent's listing-cache entry; on
failure throw handleError with both caches untouched. -/
def writeSecretOp (w : Wire) (path : String) (d : SecretData)
    (st : ClientSt) : Except VaultError Unit × ClientSt × List WireCall :=
  let url := buildSecretUrl path "data"
  match w.write url d with
  | Except.ok _ =>
    let cacheKey := buildCacheKey "secret" path st.ns
    let parentPath := extractParentPath path
    let listCacheKey := buildCacheKey "list" parentPath st.ns
    (Except.ok (),
     { st with secC := cacheInvalidate cacheKey st.secC,
               listC := cacheInvalidate listCacheKey st.listC },
     [WireCall.write url])
  | Except.error e =>
    (Except.error (handleError e), st, [WireCall.write url])

/-- VaultClient.deleteSecret: DELETE the metadata URL; same invalidation
rule as writeSecret on success, untouched caches on failure. -/
def deleteSecretOp (w : Wire) (path : String) (st : ClientSt) :
    Except VaultError Unit × ClientSt × List WireCall :=
  let url := buildSecretUrl path "metadata"
  match w.del url with
  | Except.ok _ =>
    let cacheKey := buildCacheKey "secret" path st.ns
    let parentPath := extractParentPath path
    let listCacheKey := buildCacheKey "list" parentPath st.ns
    (Except.ok (),
     { st with secC := cacheInvalidate cacheKey st.secC,
               listC := cacheInvalidate listCacheKey st.listC },
     [WireCall.del url])
  | Except.error e =>
    (Except.error (handleError e), st, [WireCall.del url])

/-! ### searchSecrets (src/lib/vault-client.ts, lines 366-461)

The recursive traversal is embedded with the per-folder fan-out
sequentialized (single-threaded cooperative scheduling realises one such
interleaving).  The AbortSignal is modelled as a function of logical
time, where time is the number of completed wire calls: the signal is
consulted exactly where the source reads `signal?.aborted`, and abortion
"during" wire call `i` is a signal that is false at instant `i` and true
at instant `i + 1`.  The traversal is modelled at one instant `now` of
wall-clock cache time.  The `fuel` argument is only a structural
termination measure: the top-level call passes `maxDepth + 2`, and the
depth guard `depth > maxDepth` always returns before fuel can reach 0. -/

/-- JSON.stringify for the modelled string-valued records. -/
def serializeData (d : SecretData) : String :=
  "\x7b" ++
    String.intercalate ","
      (d.map (fun kv => "\"" ++ kv.1 ++ "\":\"" ++ kv.2 ++ "\"")) ++
  "\x7d"

/-- The child-path expression of searchSecrets:
`` currentPath ? `${currentPath}/${item.name}` : item.name ``. -/
def childPath (cur name : String) : String :=
  if cur = "" then name else cur ++ "/" ++ name

/-- The mutable state shared by the traversal: the client (caches), the
results accumulator, the visited-path set and the issued wire calls in
order. -/
structure SState where
  client : ClientSt
  results : List SItem
  processed : List String
  calls : List WireCall
  deriving DecidableEq

/-- The traversal step `processedPaths.add(fullPath)`. -/
def markProcessed (fullPath : String) (s : SState) : SState :=
  { s with processed := fullPath :: s.processed }

/-- The traversal step `results.push({...item, path: fullPath})`. -/
def pushResult (item : SItem) (fullPath : String) (s : SState) : SState :=
  { s with results := s.results ++ [{ item with path := fullPath }] }

/-- The name-match recording of the traversal: push the child when its
name contains the query and no result with the same path exists yet. -/
def recordNameMatch (searchLower : String) (item : SItem) (fullPath : String)
    (s : SState) : SState :=
  if containsSub (lowerStr item.name) searchLower = true ∧
     (∀ r ∈ s.results, ¬(r.path = fullPath))
  then pushResult item fullPath s
  else s

/-- The content-match recording of the traversal: push the leaf when
its serialized data contains the query and no result with the same path
exists yet. -/
def recordContentMatch (searchLower : String) (secret : Secret)
    (item : SItem) (fullPath : String) (s : SState) : SState :=
  if containsSub (lowerStr (serializeData secret.data)) searchLower = true ∧
     (∀ r ∈ s.results, ¬(r.path = fullPath))
  then pushResult item fullPath s
  else s

/-- The leaf branch of the traversal: read the secret (the wire call is
recorded), record a content match on success, and swallow read errors. -/
def searchLeafRead (w : Wire) (now : Nat) (searchLower : String)
    (item : SItem) (fullPath : String) (s : SState) : SState :=
  match readSecretOp w now fullPath s.client with
  | (Except.ok secret, cst2, cs2) =>
    recordContentMatch searchLower secret item fullPath
      { s with client := cst2, calls := s.calls ++ cs2 }
  | (Except.error _, cst2, cs2) =>
    { s with client := cst2, calls := s.calls ++ cs2 }

/-- The per-child body of `searchRecursive` (the callback of
`items.map` in the source, lines 397-448, sequentialized): re-check
abort and the result limit, skip already-visited paths, mark visited,
record a deduplicated name match, then either recurse into a folder (via
`recurse`, instantiated with the enclosing recursion) or read the leaf
and record a deduplicated content match, swallowing read errors. -/
def searchItemStep (w : Wire) (now : Nat) (signal : Nat → Bool)
    (searchLower : String) (maxResults : Nat)
    (recurse : String → Nat → SState → SState)
    (currentPath : String) (depth : Nat) (s : SState) (item : SItem) :
    SState :=
  if signal s.calls.length ∨ maxResults ≤ s.results.length then s
  else if childPath currentPath item.name ∈ s.processed then s
  else if item.isFolder then
    recurse (childPath currentPath item.name) (depth + 1)
      (recordNameMatch searchLower item (childPath currentPath item.name)
        (markProcessed (childPath currentPath item.name) s))
  else
    searchLeafRead w now searchLower item (childPath currentPath item.name)
      (recordNameMatch searchLower item (childPath currentPath item.name)
        (markProcessed (childPath currentPath item.name) s))

/-- The `searchRecursive` helper of VaultClient.searchSecrets (sequentialized; see
the section comment).  Guards in source order: abort, result limit,
depth limit; then list the current path (errors swallowed) and process
each child with `searchItemStep`. -/
def searchRec (w : Wire) (now : Nat) (signal : Nat → Bool)
    (searchLower : String) (maxResults maxDepth : Nat) :
    Nat → String → Nat → SState → SState
  | 0, _, _, st => st
  | Nat.succ fuel, currentPath, depth, st =>
    if signal st.calls.length then st
    else if maxResults ≤ st.results.length then st
    else if maxDepth < depth then st
    else
      match listSecretsOp w now currentPath st.client with
      | (Except.error _, cst, cs) =>
        { st with client := cst, calls := st.calls ++ cs }
      | (Except.ok items, cst, cs) =>
        let st1 := { st with client := cst, calls := st.calls ++ cs }
        items.foldl
          (searchItemStep w now signal searchLower maxResults
            (fun p dep2 s =>
              searchRec w now signal searchLower maxResults maxDepth
                fuel p dep2 s)
            currentPath depth)
          st1

/-- VaultClient.searchSecrets: run the traversal from `basePath` at
depth 0 and truncate the accumulated results to `maxResults` (source
defaults: basePath = the mount, maxResults = 100, maxDepth = 10). -/
def searchSecretsOp (w : Wire) (now : Nat) (signal : Nat → Bool)
    (query basePath : String) (maxResults maxDepth : Nat)
    (cst : ClientSt) : List SItem × SState :=
  let fin := searchRec w now signal (lowerStr query) maxResults maxDepth
    (maxDepth + 2) basePath 0 ⟨cst, [], [], []⟩
  (fin.results.take maxResults, fin)

/-- Relation stating that `p` sits `d` child-steps below `base`: the reflexive-transitive
closure of the traversal's child-path construction.  A search result "at
depth d below basePath" is one whose path is reachable this way. -/
inductive DepthBelow : String → String → Nat → Prop where
  | refl (base : String) : DepthBelow base base 0
  | step {base p : String} {d : Nat} (name : String) :
      DepthBelow base p d → DepthBelow base (childPath p name) (d + 1)

/-- A string with no ':' character (the cache-key separator). -/
def colonFree (s : String) : Bool :=
  s.data.all (fun c => !decide (c = ':'))

/-- The two-cache coherence contract of a successful mutation at `p`:
the mutated path's value-cache entry and the parent's listing-cache
entry are gone, every other entry of both caches is unchanged (and the
namespace is untouched), and a subsequent readSecret of `p` and
listSecrets of the parent each miss the cache and issue exactly one
fresh wire fetch. -/
def MutationCoherent (p : String) (st st2 : ClientSt) : Prop :=
  st2.ns = st.ns ∧
  st2.secC = mapDelete (buildCacheKey "secret" p st.ns) st.secC ∧
  st2.listC = mapDelete (buildCacheKey "list" (extractParentPath p) st.ns) st.listC ∧
  mapFind (buildCacheKey "secret" p st.ns) st2.secC = none ∧
  mapFind (buildCacheKey "list" (extractParentPath p) st.ns) st2.listC = none ∧
  (∀ k, ¬(k = buildCacheKey "secret" p st.ns) →
    mapFind k st2.secC = mapFind k st.secC) ∧
  (∀ k, ¬(k = buildCacheKey "list" (extractParentPath p) st.ns) →
    mapFind k st2.listC = mapFind k st.listC) ∧
  (∀ w2 now2, (readSecretOp w2 now2 p st2).2.2 =
    [WireCall.readS (buildSecretUrl p "data")]) ∧
  (∀ w2 now2, (listSecretsOp w2 now2 (extractParentPath p) st2).2.2 =
    [WireCall.list (buildListUrl (extractParentPath p))])

/-! ### Concrete fixtures for counterexamples and witnesses -/

/-- A client with no namespace and empty caches. -/
def emptyClient : ClientSt := ⟨none, [], []⟩

/-- A wire on which every call succeeds (one folder entry under the
root, one readable leaf). -/
def wOk : Wire :=
  { list := fun _ => Except.ok ["app/"],
    read := fun _ => Except.ok ([("user", "alice")], none),
    write := fun _ _ => Except.ok (),
    del := fun _ => Except.ok () }

/-- A connection-level failure (HTTP 500 with a server error body). -/
def eFail : AxiosFailure :=
  ⟨some 500, some ["internal error"], "Request failed with status code 500"⟩

/-- A wire on which every call fails with `eFail`. -/
def wFail : Wire :=
  { list := fun _ => Except.error eFail,
    read := fun _ => Except.error eFail,
    write := fun _ _ => Except.error eFail,
    del := fun _ => Except.error eFail }

/-- A not-found response whose body carries a server error message that
does not contain the digits "404" (as Vault emits for an unknown
route), so `handleError` derives that message instead of the axios
fallback. -/
def e404body : AxiosFailure :=
  ⟨some 404, some ["no handler for route"], "Request failed with status code 404"⟩

/-- A wire failing every call with `e404body`. -/
def w404body : Wire :=
  { list := fun _ => Except.error e404body,
    read := fun _ => Except.error e404body,
    write := fun _ _ => Except.error e404body,
    del := fun _ => Except.error e404body }

/-- A bare not-found response (empty `errors` body): `handleError`
falls back to the axios message, which contains "404". -/
def e404plain : AxiosFailure :=
  ⟨some 404, some [], "Request failed with status code 404"⟩

/-- A wire failing every call with `e404plain`. -/
def w404plain : Wire :=
  { list := fun _ => Except.error e404plain,
    read := fun _ => Except.error e404plain,
    write := fun _ _ => Except.error e404plain,
    del := fun _ => Except.error e404plain }

/-- A one-leaf tree: listing the root yields the leaf "leaf", whose
data serializes to a string containing "tok". -/
def wCex : Wire :=
  { list := fun url =>
      if url = "/v1/secret/metadata" then Except.ok ["leaf"]
      else Except.error e404plain,
    read := fun url =>
      if url = "/v1/secret/data/leaf" then Except.ok ([("a", "tok")], none)
      else Except.error e404plain,
    write := fun _ _ => Except.ok (),
    del := fun _ => Except.ok () }

/-- An abort signal that fires while the second wire call is in flight:
not yet aborted at instants 0 and 1, aborted from instant 2 on. -/
def sigCex : Nat → Bool := fun n => decide (2 ≤ n)

/-- The never-aborted signal. -/
def sigNone : Nat → Bool := fun _ => false

/-- A one-leaf tree whose leaf name "x" matches the query "x" by name;
reads fail (and are swallowed by the search). -/
def wDepth : Wire :=
  { list := fun url =>
      if url = "/v1/secret/metadata" then Except.ok ["x"]
      else Except.error e404plain,
    read := fun _ =>
      Except.error ⟨some 403, some ["permission denied"],
        "Request failed with status code 403"⟩,
    write := fun _ _ => Except.ok (),
    del := fun _ => Except.ok () }

/-! ## Helper lemmas -/

theorem mapFind_filter_key {T : Type} (keep : String → Bool) (k : String)
    (m : CMap T) :
    mapFind k (m.filter (fun kv => keep kv.1)) =
      if keep k then mapFind k m else none := by
  induction m with
  | nil => simp [mapFind]
  | cons hd tl ih =>
    by_cases h1 : hd.1 = k
    · subst h1
      by_cases h2 : keep hd.1
      · simp [List.filter_cons, h2, mapFind]
      · simp only [List.filter_cons, h2, Bool.false_eq_true, ite_false]
        simp [ih, h2]
    · by_cases h2 : keep hd.1
      · simp [List.filter_cons, h2, mapFind, h1, ih]
      · simp only [List.filter_cons, h2, Bool.false_eq_true, ite_false]
        rw [ih]
        simp [mapFind, h1]

theorem mapFind_delete {T : Type} (k2 k : String) (m : CMap T) :
    mapFind k2 (mapDelete k m) = if k2 = k then none else mapFind k2 m := by
  have h := mapFind_filter_key (fun s => !decide (s = k)) k2 m
  by_cases hk : k2 = k
  · simpa [mapDelete, hk] using h
  · simpa [mapDelete, hk] using h

theorem mapFind_set_self {T : Type} (k : String) (e : CEntry T) (m : CMap T) :
    mapFind k (mapSet k e m) = some e := by
  simp [mapSet, mapFind]

theorem mapFind_filter_of_none {T : Type} (k : String)
    (p : String × CEntry T → Bool) (m : CMap T) (h : mapFind k m = none) :
    mapFind k (m.filter p) = none := by
  induction m with
  | nil => simp [mapFind]
  | cons hd tl ih =>
    rw [mapFind] at h
    by_cases h1 : hd.1 = k
    · simp [h1] at h
    · rw [if_neg h1] at h
      by_cases h2 : p hd
      · simp only [List.filter_cons, h2, ite_true]
        rw [mapFind, if_neg h1]
        exact ih h
      · simp only [List.filter_cons, h2, Bool.false_eq_true, ite_false]
        exact ih h

theorem cacheGet_of_none {T : Type} (now : Nat) (k : String) (m : CMap T)
    (h : mapFind k m = none) : cacheGet now k m = (none, m) := by
  simp [cacheGet, h]

/-- A `foldl` preserves any invariant its step function preserves. -/
theorem foldl_inv {σ α : Type} (P : σ → Prop) (f : σ → α → σ)
    (hf : ∀ s a, P s → P (f s a)) :
    ∀ (l : List α) (s : σ), P s → P (l.foldl f s) := by
  intro l
  induction l with
  | nil => intro s hs; simpa using hs
  | cons hd tl ih => intro s hs; exact ih (f s hd) (hf s hd hs)

theorem compileToks_plain (l : List Char) (h : ∀ c ∈ l, regexMeta c = false) :
    compileToks l 0 false = some (l.map RTok.lit) := by
  induction l with
  | nil => rfl
  | cons c rest ih =>
    have hc : regexMeta c = false := h c (by simp)
    have hrest : ∀ x ∈ rest, regexMeta x = false := fun x hx => h x (by simp [hx])
    have h1 : ¬(c = '\\') := by intro e; rw [e] at hc; simp [regexMeta] at hc
    have h2 : ¬(c = '.') := by intro e; rw [e] at hc; simp [regexMeta] at hc
    have h3 : ¬(c = '(') := by intro e; rw [e] at hc; simp [regexMeta] at hc
    have h4 : ¬(c = ')') := by intro e; rw [e] at hc; simp [regexMeta] at hc
    simp [compileToks, h1, h2, h3, h4, hc, ih hrest]

theorem matchToks_lits (l : List Char) :
    ∀ k : List Char, matchToks (l.map RTok.lit) k = isPreL l k := by
  induction l with
  | nil => intro k; rfl
  | cons c rest ih =>
    intro k
    cases k with
    | nil => rfl
    | cons a as => simp [matchToks, isPreL, rtokMatches, ih]

theorem strData_append (a b : String) : (a ++ b).data = a.data ++ b.data := rfl

theorem strExt {s t : String} (h : s.data = t.data) : s = t := by
  cases s; cases t; exact congrArg String.mk h

theorem colonFree_mem {s : String} (h : colonFree s = true) :
    ∀ x ∈ s.data, x ≠ ':' := by
  intro x hx
  have := List.all_eq_true.mp h x hx
  simpa using this

theorem splitFirstColon :
    ∀ (a c b d : List Char), (∀ x ∈ a, x ≠ ':') → (∀ x ∈ c, x ≠ ':') →
      a ++ ':' :: b = c ++ ':' :: d → a = c ∧ b = d := by
  intro a
  induction a with
  | nil =>
    intro c b d _ hc h
    cases c with
    | nil => simpa using h
    | cons c0 cs =>
      simp only [List.nil_append, List.cons_append, List.cons.injEq] at h
      exact absurd h.1.symm (hc c0 (by simp))
  | cons a0 as ih =>
    intro c b d ha hc h
    cases c with
    | nil =>
      simp only [List.cons_append, List.nil_append, List.cons.injEq] at h
      exact absurd h.1 (ha a0 (by simp))
    | cons c0 cs =>
      simp only [List.cons_append, List.cons.injEq] at h
      obtain ⟨h0, h1⟩ := h
      obtain ⟨e1, e2⟩ := ih cs b d (fun x hx => ha x (by simp [hx]))
        (fun x hx => hc x (by simp [hx])) h1
      exact ⟨by rw [h0, e1], e2⟩

theorem revColonSplit (x y : List Char) :
    (x ++ ':' :: y).reverse = y.reverse ++ ':' :: x.reverse := by
  simp [List.reverse_append]

theorem buildCacheKey_data (pre path : String) (ns : Option String) :
    (buildCacheKey pre path ns).data =
      pre.data ++ ':' :: (path.data ++ ':' :: (effNamespace ns).data) := by
  show (pre ++ ":" ++ path ++ ":" ++ effNamespace ns).data = _
  rw [strData_append, strData_append, strData_append, strData_append]
  simp

/-! ## Claim theorems -/

/-- Claim C3, counterexample: the cache-key construction is not
injective — a colon inside the path collides with the key separators:
`("list", "a:b", ns "c")` and `("list", "a", ns "b:c")` build the same
key although the paths differ. -/
theorem buildCacheKey_collision_cex :
    buildCacheKey "list" "a:b" (some "c") =
      buildCacheKey "list" "a" (some "b:c") ∧
    ¬(("a:b" : String) = "a") := by
  exact ⟨by decide, by decide⟩

/-- Claim C3 (amended): the cache key determines kind, path and
effective namespace — where the effective namespace renders both an
absent and an empty namespace as "root" — provided the kind and the
effective namespace contain no ':' (the separator); the path may be
arbitrary.  The kinds actually used, "list" and "secret", are
colon-free. -/
theorem buildCacheKey_injective_amended (pre1 pre2 path1 path2 : String)
    (ns1 ns2 : Option String)
    (hp1 : colonFree pre1 = true) (hp2 : colonFree pre2 = true)
    (hn1 : colonFree (effNamespace ns1) = true)
    (hn2 : colonFree (effNamespace ns2) = true) :
    buildCacheKey pre1 path1 ns1 = buildCacheKey pre2 path2 ns2 ↔
      (pre1 = pre2 ∧ path1 = path2 ∧
        effNamespace ns1 = effNamespace ns2) := by
  constructor
  · intro h
    have hd := congrArg String.data h
    rw [buildCacheKey_data, buildCacheKey_data] at hd
    obtain ⟨e1, e2⟩ := splitFirstColon _ _ _ _ (colonFree_mem hp1)
      (colonFree_mem hp2) hd
    have hrev := congrArg List.reverse e2
    rw [revColonSplit, revColonSplit] at hrev
    obtain ⟨e3, e4⟩ := splitFirstColon _ _ _ _
      (fun x hx => colonFree_mem hn1 x (List.mem_reverse.mp hx))
      (fun x hx => colonFree_mem hn2 x (List.mem_reverse.mp hx)) hrev
    refine ⟨strExt e1, strExt (List.reverse_injective e4),
      strExt (List.reverse_injective e3)⟩
  · rintro ⟨rfl, rfl, he⟩
    simp [buildCacheKey, he]

/-- Claim C3, witness: the amended injectivity theorem applied to the
kind "list" and the namespace "team" at two distinct paths. -/
theorem buildCacheKey_injective_amended_witness :
    colonFree "list" = true ∧ colonFree (effNamespace (some "team")) = true ∧
    (buildCacheKey "list" "a" (some "team") =
        buildCacheKey "list" "b" (some "team") ↔
      (("list" : String) = "list" ∧ ("a" : String) = "b" ∧
        effNamespace (some "team") = effNamespace (some "team"))) :=
  ⟨by decide, by decide,
    buildCacheKey_injective_amended "list" "list" "a" "b" (some "team")
      (some "team") (by decide) (by decide) (by decide) (by decide)⟩

/-- Claim C2, counterexample: the cache entry stored at time 0 with
TTL 5 is still returned by `get` at time 5, i.e. at exact equality
`now - storedAt = ttl`, whereas the claim demands absence for every
`now - storedAt >= ttl`. -/
theorem cache_ttl_boundary_cex :
    (5 : Nat) - 0 ≥ 5 ∧
    (cacheGet 5 "k" (cacheSet 0 "k" "v" (some 5) 1000 ([] : CMap String))).1 =
      some "v" := by
  exact ⟨by decide, by decide⟩

/-- Claim C2 (amended): an entry stored by `set(key, value, ttl)` at
`storedAt` is returned by a later `get(key)` at `now` exactly while
`now - storedAt <= ttl`, and is absent for every `now - storedAt > ttl`
(strict — at exact equality the entry is still live), regardless of
whether `purgeExpired` has run at any instant `t` in between. -/
theorem cache_ttl_liveness {T : Type} (k : String) (v : T)
    (ttl storedAt t now dflt : Nat) (m : CMap T) (h2 : t ≤ now) :
    (cacheGet now k (cacheSet storedAt k v (some ttl) dflt m)).1 =
      (if now - storedAt ≤ ttl then some v else none) ∧
    (cacheGet now k
        (purgeExpired t (cacheSet storedAt k v (some ttl) dflt m)).2).1 =
      (if now - storedAt ≤ ttl then some v else none) := by
  have hset : cacheSet storedAt k v (some ttl) dflt m =
      (k, ⟨v, storedAt, ttl⟩) :: mapDelete k m := rfl
  constructor
  · rw [hset]
    rcases Nat.lt_or_ge ttl (now - storedAt) with hlt | hge
    · simp [cacheGet, mapFind, isExpired, hlt, Nat.not_le.mpr hlt]
    · simp [cacheGet, mapFind, isExpired, Nat.not_lt.mpr hge, hge]
  · rw [hset, purgeExpired]
    by_cases hpt : isExpired t (⟨v, storedAt, ttl⟩ : CEntry T)
    · -- the purge at t removed the entry; then it is also expired at now
      have hlt : ttl < t - storedAt := by
        simpa [isExpired] using hpt
      have hltnow : ttl < now - storedAt :=
        Nat.lt_of_lt_of_le hlt (Nat.sub_le_sub_right h2 storedAt)
      have hnone : mapFind k
          (((k, (⟨v, storedAt, ttl⟩ : CEntry T)) :: mapDelete k m).filter
            (fun kv => !isExpired t kv.2)) = none := by
        simp only [List.filter_cons, hpt, Bool.not_true, Bool.false_eq_true,
          ite_false]
        exact mapFind_filter_of_none k _ _ (by simp [mapFind_delete])
      simp [cacheGet, hnone, Nat.not_le.mpr hltnow]
    · -- the purge at t kept the entry
      have hkept : (((k, (⟨v, storedAt, ttl⟩ : CEntry T)) :: mapDelete k m).filter
            (fun kv => !isExpired t kv.2)) =
          (k, (⟨v, storedAt, ttl⟩ : CEntry T)) ::
            ((mapDelete k m).filter (fun kv => !isExpired t kv.2)) := by
        simp [List.filter_cons, hpt]
      rw [hkept]
      rcases Nat.lt_or_ge ttl (now - storedAt) with hlt | hge
      · simp [cacheGet, mapFind, isExpired, hlt, Nat.not_le.mpr hlt]
      · simp [cacheGet, mapFind, isExpired, Nat.not_lt.mpr hge, hge]

/-- Claim C2, witness: the amended liveness theorem applied at a
concrete entry (stored at time 0, TTL 5, purged at time 3, read at
time 4). -/
theorem cache_ttl_liveness_witness :
    (3 : Nat) ≤ 4 ∧
    ((cacheGet 4 "k" (cacheSet 0 "k" "v" (some 5) 1000 ([] : CMap String))).1 =
      (if (4 : Nat) - 0 ≤ 5 then some "v" else none) ∧
    (cacheGet 4 "k"
        (purgeExpired 3 (cacheSet 0 "k" "v" (some 5) 1000 ([] : CMap String))).2).1 =
      (if (4 : Nat) - 0 ≤ 5 then some "v" else none)) :=
  ⟨by decide, cache_ttl_liveness "k" "v" 5 0 3 4 1000 [] (by decide)⟩

/-- Claim C5, counterexample: `invalidatePattern` fails on the plain
string pattern "(" — `new RegExp("^(")` throws a SyntaxError
(unterminated group) before any key is examined. -/
theorem invalidatePattern_throws_cex :
    cacheInvalidatePattern "(" ([("secret:a:root", ⟨0, 0, 1000⟩)] : CMap Nat) =
      none := by decide

/-- Claim C5 (amended): every TTL-cache operation other than
`invalidatePattern` is total (they are embedded as plain functions), and
`invalidatePattern` succeeds for every string pattern made of plain
characters (no regex metacharacter) — but it is not total on arbitrary
strings, since a pattern that is not a valid regex makes `new RegExp`
throw. -/
theorem invalidatePattern_total_amended {T : Type} (pattern : String)
    (m : CMap T) (h : plainPattern pattern = true) :
    ∃ m2, cacheInvalidatePattern pattern m = some m2 := by
  have hall : ∀ c ∈ pattern.data, regexMeta c = false := by
    intro c hc
    have := List.all_eq_true.mp h c hc
    simpa using this
  refine ⟨m.filter (fun kv => !matchToks (pattern.data.map RTok.lit) kv.1.data), ?_⟩
  simp [cacheInvalidatePattern, ecmaCompile, compileToks_plain pattern.data hall]

/-- Claim C5, witness: the amended totality theorem applied to the
plain pattern "list:" on a concrete cache. -/
theorem invalidatePattern_total_amended_witness :
    plainPattern "list:" = true ∧
    ∃ m2, cacheInvalidatePattern "list:"
        ([("list:a:root", ⟨7, 0, 1000⟩)] : CMap Nat) = some m2 :=
  ⟨by decide, invalidatePattern_total_amended "list:" _ (by decide)⟩

/-- Claim C6, counterexample: the plain string pattern "a.c" removes
the key "abc" although "a.c" is not a literal prefix of "abc" — the
string is compiled as a regex, so '.' acts as a wildcard. -/
theorem invalidatePattern_metachar_cex :
    cacheInvalidatePattern "a.c" ([("abc", ⟨0, 0, 1000⟩)] : CMap Nat) =
      some [] ∧
    isPreL "a.c".data "abc".data = false := by
  exact ⟨by decide, by decide⟩

/-- Claim C6 (amended): for every cache state and every plain string
pattern containing no regex metacharacter, `invalidatePattern` removes
exactly the keys of which the pattern is an anchored literal prefix:
keys with the prefix become absent, all other keys are unchanged. -/
theorem invalidatePattern_prefix_amended {T : Type} (pattern : String)
    (m : CMap T) (h : plainPattern pattern = true) :
    ∃ m2, cacheInvalidatePattern pattern m = some m2 ∧
      ∀ k : String, mapFind k m2 =
        (if isPreL pattern.data k.data then none else mapFind k m) := by
  have hall : ∀ c ∈ pattern.data, regexMeta c = false := by
    intro c hc
    have := List.all_eq_true.mp h c hc
    simpa using this
  refine ⟨m.filter (fun kv => !isPreL pattern.data kv.1.data), ?_, ?_⟩
  · simp only [cacheInvalidatePattern, ecmaCompile,
      compileToks_plain pattern.data hall]
    exact congrArg some (List.filter_congr (fun kv _ => by rw [matchToks_lits]))
  · intro k
    have hfk := mapFind_filter_key (fun s => !isPreL pattern.data s.data) k m
    by_cases hp : isPreL pattern.data k.data
    · simpa [hp] using hfk
    · simpa [hp] using hfk

/-- Claim C6, witness: the amended pattern-invalidation theorem applied
to the plain prefix "list:x" on a two-entry cache. -/
theorem invalidatePattern_prefix_amended_witness :
    plainPattern "list:x" = true ∧
    ∃ m2, cacheInvalidatePattern "list:x"
        ([("list:x:root", ⟨1, 0, 9⟩), ("list:y:root", ⟨2, 0, 9⟩)] : CMap Nat) =
        some m2 ∧
      ∀ k : String, mapFind k m2 =
        (if isPreL "list:x".data k.data then none
         else mapFind k
           ([("list:x:root", ⟨1, 0, 9⟩), ("list:y:root", ⟨2, 0, 9⟩)] : CMap Nat)) :=
  ⟨by decide, invalidatePattern_prefix_amended "list:x" _ (by decide)⟩

/-- Claim C7, counterexample: stripping the mount prefix is not
idempotent — on "secret/secret/db" one application yields "secret/db",
a second application strips again and yields "db". -/
theorem cleanSecretPath_not_idempotent_cex :
    cleanSecretPath "secret/secret/db" = "secret/db" ∧
    cleanSecretPath (cleanSecretPath "secret/secret/db") = "db" ∧
    ¬(("db" : String) = "secret/db") := by
  exact ⟨by decide, by decide, by decide⟩

/-- Claim C7 (amended): `cleanSecretPath` is idempotent on every path
whose once-stripped form does not itself begin with the mount prefix
"secret/" again; for paths with stacked mount prefixes a second
application strips a second prefix. -/
theorem cleanSecretPath_idempotent_amended (p : String)
    (h : isPreL (DEFAULT_MOUNT ++ "/").data (cleanSecretPath p).data = false) :
    cleanSecretPath (cleanSecretPath p) = cleanSecretPath p := by
  generalize hq : cleanSecretPath p = q at h ⊢
  have h2 : isPreL (DEFAULT_MOUNT.data ++ ['/']) q.data = false := by
    simpa using h
  simp [cleanSecretPath, h2]

/-- Claim C7, witness: the amended idempotence theorem applied to the
path "secret/app". -/
theorem cleanSecretPath_idempotent_amended_witness :
    isPreL (DEFAULT_MOUNT ++ "/").data (cleanSecretPath "secret/app").data =
      false ∧
    cleanSecretPath (cleanSecretPath "secret/app") =
      cleanSecretPath "secret/app" :=
  ⟨by decide, cleanSecretPath_idempotent_amended "secret/app" (by decide)⟩

theorem readSecretOp_miss_calls (w : Wire) (now : Nat) (p : String)
    (st : ClientSt)
    (h : mapFind (buildCacheKey "secret" p st.ns) st.secC = none) :
    (readSecretOp w now p st).2.2 = [WireCall.readS (buildSecretUrl p "data")] := by
  cases hw : w.read (buildSecretUrl p "data") with
  | ok v => simp [readSecretOp, cacheGet_of_none _ _ _ h, hw]
  | error e => simp [readSecretOp, cacheGet_of_none _ _ _ h, hw]

theorem listSecretsOp_miss_calls (w : Wire) (now : Nat) (p : String)
    (st : ClientSt)
    (h : mapFind (buildCacheKey "list" p st.ns) st.listC = none) :
    (listSecretsOp w now p st).2.2 = [WireCall.list (buildListUrl p)] := by
  cases hw : w.list (buildListUrl p) with
  | ok v => simp [listSecretsOp, cacheGet_of_none _ _ _ h, hw]
  | error e =>
    by_cases h404 : containsSub (handleError e).message "404"
    <;> simp [listSecretsOp, cacheGet_of_none _ _ _ h, hw, h404]

theorem mutationCoherent_of_deleted (st : ClientSt) (p : String) :
    MutationCoherent p st
      { st with
          secC := mapDelete (buildCacheKey "secret" p st.ns) st.secC,
          listC := mapDelete (buildCacheKey "list" (extractParentPath p) st.ns)
            st.listC } := by
  refine ⟨rfl, rfl, rfl, ?_, ?_, ?_, ?_, ?_, ?_⟩
  · simp [mapFind_delete]
  · simp [mapFind_delete]
  · intro k hk; simp [mapFind_delete, hk]
  · intro k hk; simp [mapFind_delete, hk]
  · intro w2 now2
    apply readSecretOp_miss_calls
    simp [mapFind_delete]
  · intro w2 now2
    apply listSecretsOp_miss_calls
    simp [mapFind_delete]

/-- Claim C1: after a successful writeSecret or deleteSecret at `p`,
exactly the value-cache entry keyed ("secret", p, ns) and the
listing-cache entry keyed ("list", parentOf(p), ns) are invalidated,
every other entry of both caches is unchanged, and a subsequent
readSecret(p) and listSecrets(parentOf(p)) each miss the cache and
issue one fresh wire fetch. -/
theorem vault_write_delete_invalidation (w : Wire) (p : String)
    (d : SecretData) (st : ClientSt)
    (hw : w.write (buildSecretUrl p "data") d = Except.ok ())
    (hdel : w.del (buildSecretUrl p "metadata") = Except.ok ()) :
    ((writeSecretOp w p d st).1 = Except.ok () ∧
      MutationCoherent p st (writeSecretOp w p d st).2.1) ∧
    ((deleteSecretOp w p st).1 = Except.ok () ∧
      MutationCoherent p st (deleteSecretOp w p st).2.1) := by
  have hwst : (writeSecretOp w p d st).2.1 =
      { st with
          secC := mapDelete (buildCacheKey "secret" p st.ns) st.secC,
          listC := mapDelete (buildCacheKey "list" (extractParentPath p) st.ns)
            st.listC } := by
    simp [writeSecretOp, hw, cacheInvalidate]
  have hdst : (deleteSecretOp w p st).2.1 =
      { st with
          secC := mapDelete (buildCacheKey "secret" p st.ns) st.secC,
          listC := mapDelete (buildCacheKey "list" (extractParentPath p) st.ns)
            st.listC } := by
    simp [deleteSecretOp, hdel, cacheInvalidate]
  refine ⟨⟨?_, ?_⟩, ?_, ?_⟩
  · simp [writeSecretOp, hw]
  · rw [hwst]; exact mutationCoherent_of_deleted st p
  · simp [deleteSecretOp, hdel]
  · rw [hdst]; exact mutationCoherent_of_deleted st p

/-- Claim C1, witness: the invalidation theorem applied to the path
"app/db" on the all-success wire and the empty client. -/
theorem vault_write_delete_invalidation_witness :
    wOk.write (buildSecretUrl "app/db" "data") [("k", "v")] = Except.ok () ∧
    wOk.del (buildSecretUrl "app/db" "metadata") = Except.ok () ∧
    (((writeSecretOp wOk "app/db" [("k", "v")] emptyClient).1 = Except.ok () ∧
      MutationCoherent "app/db" emptyClient
        (writeSecretOp wOk "app/db" [("k", "v")] emptyClient).2.1) ∧
     ((deleteSecretOp wOk "app/db" emptyClient).1 = Except.ok () ∧
      MutationCoherent "app/db" emptyClient
        (deleteSecretOp wOk "app/db" emptyClient).2.1)) :=
  ⟨rfl, rfl,
    vault_write_delete_invalidation wOk "app/db" [("k", "v")] emptyClient rfl rfl⟩

/-- Claim C10: when the wire call of writeSecret or deleteSecret fails,
the operation throws the typed error and both caches (the whole client
state) are left completely unchanged — invalidation happens only after
a successful wire call. -/
theorem mutation_atomic_on_failure (w : Wire) (p : String) (d : SecretData)
    (st : ClientSt) (e1 e2 : AxiosFailure)
    (hw : w.write (buildSecretUrl p "data") d = Except.error e1)
    (hdel : w.del (buildSecretUrl p "metadata") = Except.error e2) :
    writeSecretOp w p d st =
      (Except.error (handleError e1), st,
        [WireCall.write (buildSecretUrl p "data")]) ∧
    deleteSecretOp w p st =
      (Except.error (handleError e2), st,
        [WireCall.del (buildSecretUrl p "metadata")]) := by
  constructor
  · simp [writeSecretOp, hw]
  · simp [deleteSecretOp, hdel]

/-- Claim C10, witness: the atomicity theorem applied to the all-failing
wire at path "app/db" on the empty client. -/
theorem mutation_atomic_on_failure_witness :
    wFail.write (buildSecretUrl "app/db" "data") [("k", "v")] =
      Except.error eFail ∧
    wFail.del (buildSecretUrl "app/db" "metadata") = Except.error eFail ∧
    (writeSecretOp wFail "app/db" [("k", "v")] emptyClient =
      (Except.error (handleError eFail), emptyClient,
        [WireCall.write (buildSecretUrl "app/db" "data")]) ∧
     deleteSecretOp wFail "app/db" emptyClient =
      (Except.error (handleError eFail), emptyClient,
        [WireCall.del (buildSecretUrl "app/db" "metadata")])) :=
  ⟨rfl, rfl,
    mutation_atomic_on_failure wFail "app/db" [("k", "v")] emptyClient
      eFail eFail rfl rfl⟩

/-- Claim C4, counterexample: a wire response with not-found status 404
whose body carries a server error message without the digits "404"
makes listSecrets throw instead of returning the empty array — the
not-found detection is a substring test on the derived message, not a
status check. -/
theorem list_not_found_throws_cex :
    e404body.status = some 404 ∧
    (listSecretsOp w404body 0 "missing" emptyClient).1 =
      Except.error ⟨"no handler for route", some ["no handler for route"]⟩ :=
  ⟨rfl, rfl⟩

/-- Claim C4 (amended): on a cache miss, a failed wire call makes
listSecrets return the empty array exactly when the derived error
message contains "404" (which holds for a bare not-found response,
where the axios fallback message "Request failed with status code 404"
is used) and otherwise propagates the typed error — even for status
404; readSecret, writeSecret and deleteSecret always propagate the
typed error. -/
theorem not_found_handling_amended (w : Wire) (path : String)
    (d : SecretData) (st : ClientSt) (now : Nat) (e : AxiosFailure)
    (hlist : w.list (buildListUrl path) = Except.error e)
    (hread : w.read (buildSecretUrl path "data") = Except.error e)
    (hw : w.write (buildSecretUrl path "data") d = Except.error e)
    (hdel : w.del (buildSecretUrl path "metadata") = Except.error e)
    (hmiss1 : mapFind (buildCacheKey "list" path st.ns) st.listC = none)
    (hmiss2 : mapFind (buildCacheKey "secret" path st.ns) st.secC = none) :
    (listSecretsOp w now path st).1 =
      (if containsSub (handleError e).message "404" then Except.ok []
       else Except.error (handleError e)) ∧
    (readSecretOp w now path st).1 = Except.error (handleError e) ∧
    (writeSecretOp w path d st).1 = Except.error (handleError e) ∧
    (deleteSecretOp w path st).1 = Except.error (handleError e) := by
  refine ⟨?_, ?_, ?_, ?_⟩
  · by_cases h404 : containsSub (handleError e).message "404"
    <;> simp [listSecretsOp, cacheGet_of_none _ _ _ hmiss1, hlist, h404]
  · simp [readSecretOp, cacheGet_of_none _ _ _ hmiss2, hread]
  · simp [writeSecretOp, hw]
  · simp [deleteSecretOp, hdel]

theorem readSecretOp_calls_len (w : Wire) (now : Nat) (p : String)
    (st : ClientSt) : (readSecretOp w now p st).2.2.length ≤ 1 := by
  simp only [readSecretOp]
  rcases hcg : cacheGet now (buildCacheKey "secret" p st.ns) st.secC with ⟨o, c⟩
  cases o with
  | some v => simp
  | none =>
    cases hrd : w.read (buildSecretUrl p "data") with
    | ok v => simp
    | error e => simp

theorem listSecretsOp_calls_len (w : Wire) (now : Nat) (p : String)
    (st : ClientSt) : (listSecretsOp w now p st).2.2.length ≤ 1 := by
  simp only [listSecretsOp]
  rcases hcg : cacheGet now (buildCacheKey "list" p st.ns) st.listC with ⟨o, c⟩
  cases o with
  | some v => simp
  | none =>
    cases hrd : w.list (buildListUrl p) with
    | ok v => simp
    | error e =>
      by_cases h404 : containsSub (handleError e).message "404"
      <;> simp [h404]

theorem calls_append_inv (signal : Nat → Bool) (a b : List WireCall)
    (ha : ∀ i, i < a.length → signal i = false)
    (hhead : signal a.length = false) (hb : b.length ≤ 1) :
    ∀ i, i < (a ++ b).length → signal i = false := by
  intro i hi
  rw [List.length_append] at hi
  by_cases h : i < a.length
  · exact ha i h
  · have he : i = a.length := by omega
    rw [he]; exact hhead

theorem recordNameMatch_results_inv (Q : String → Prop) (q : String)
    (item : SItem) (fp : String) (s : SState) (hQ : Q fp)
    (hinv : ∀ r ∈ s.results, Q r.path) :
    ∀ r ∈ (recordNameMatch q item fp s).results, Q r.path := by
  intro r hr
  rw [recordNameMatch] at hr
  split at hr
  · simp only [pushResult, List.mem_append, List.mem_singleton] at hr
    rcases hr with hr | hr
    · exact hinv r hr
    · rw [hr]; exact hQ
  · exact hinv r hr

theorem recordContentMatch_results_inv (Q : String → Prop) (q : String)
    (secret : Secret) (item : SItem) (fp : String) (s : SState) (hQ : Q fp)
    (hinv : ∀ r ∈ s.results, Q r.path) :
    ∀ r ∈ (recordContentMatch q secret item fp s).results, Q r.path := by
  intro r hr
  rw [recordContentMatch] at hr
  split at hr
  · simp only [pushResult, List.mem_append, List.mem_singleton] at hr
    rcases hr with hr | hr
    · exact hinv r hr
    · rw [hr]; exact hQ
  · exact hinv r hr

theorem recordNameMatch_calls (q : String) (item : SItem) (fp : String)
    (s : SState) : (recordNameMatch q item fp s).calls = s.calls := by
  rw [recordNameMatch]; split <;> rfl

theorem recordContentMatch_calls (q : String) (secret : Secret) (item : SItem)
    (fp : String) (s : SState) :
    (recordContentMatch q secret item fp s).calls = s.calls := by
  rw [recordContentMatch]; split <;> rfl

theorem searchLeafRead_results_inv (w : Wire) (now : Nat) (q : String)
    (item : SItem) (fp : String) (s : SState) (Q : String → Prop) (hQ : Q fp)
    (hinv : ∀ r ∈ s.results, Q r.path) :
    ∀ r ∈ (searchLeafRead w now q item fp s).results, Q r.path := by
  intro r hr
  rw [searchLeafRead] at hr
  rcases hrd : readSecretOp w now fp s.client with ⟨res, cst2, cs2⟩
  rw [hrd] at hr
  cases res with
  | ok secret =>
    exact recordContentMatch_results_inv Q q secret item fp
      { s with client := cst2, calls := s.calls ++ cs2 } hQ
      (fun r2 h2 => hinv r2 h2) r hr
  | error e => exact hinv r hr

theorem searchLeafRead_calls_inv (w : Wire) (now : Nat) (q : String)
    (item : SItem) (fp : String) (s : SState) (signal : Nat → Bool)
    (hsig : signal s.calls.length = false)
    (hinv : ∀ i, i < s.calls.length → signal i = false) :
    ∀ i, i < (searchLeafRead w now q item fp s).calls.length →
      signal i = false := by
  intro i hi
  rw [searchLeafRead] at hi
  rcases hrd : readSecretOp w now fp s.client with ⟨res, cst2, cs2⟩
  rw [hrd] at hi
  have hlen : cs2.length ≤ 1 := by
    have hfull := readSecretOp_calls_len w now fp s.client
    rw [hrd] at hfull; exact hfull
  cases res with
  | ok secret =>
    rw [recordContentMatch_calls] at hi
    exact calls_append_inv signal s.calls cs2 hinv hsig hlen i hi
  | error e => exact calls_append_inv signal s.calls cs2 hinv hsig hlen i hi

theorem searchItemStep_results_inv (w : Wire) (now : Nat) (signal : Nat → Bool)
    (q : String) (maxR : Nat) (recurse : String → Nat → SState → SState)
    (cur : String) (depth : Nat) (Q : String → Prop)
    (hQchild : ∀ name : String, Q (childPath cur name))
    (hrec : ∀ (name : String) (s2 : SState),
      (∀ r ∈ s2.results, Q r.path) →
      ∀ r ∈ (recurse (childPath cur name) (depth + 1) s2).results, Q r.path)
    (s : SState) (item : SItem) (hinv : ∀ r ∈ s.results, Q r.path) :
    ∀ r ∈ (searchItemStep w now signal q maxR recurse cur depth s item).results,
      Q r.path := by
  intro r hr
  rw [searchItemStep] at hr
  split at hr
  · exact hinv r hr
  · split at hr
    · exact hinv r hr
    · split at hr
      · refine hrec item.name _ ?_ r hr
        exact recordNameMatch_results_inv Q q item (childPath cur item.name)
          (markProcessed (childPath cur item.name) s) (hQchild item.name)
          (fun r2 h2 => hinv r2 h2)
      · exact searchLeafRead_results_inv w now q item (childPath cur item.name)
          (recordNameMatch q item (childPath cur item.name)
            (markProcessed (childPath cur item.name) s)) Q (hQchild item.name)
          (recordNameMatch_results_inv Q q item (childPath cur item.name)
            (markProcessed (childPath cur item.name) s) (hQchild item.name)
            (fun r2 h2 => hinv r2 h2)) r hr

theorem searchItemStep_calls_inv (w : Wire) (now : Nat) (signal : Nat → Bool)
    (q : String) (maxR : Nat) (recurse : String → Nat → SState → SState)
    (cur : String) (depth : Nat)
    (hrec : ∀ (name : String) (s2 : SState),
      (∀ i, i < s2.calls.length → signal i = false) →
      ∀ i, i < (recurse (childPath cur name) (depth + 1) s2).calls.length →
        signal i = false)
    (s : SState) (item : SItem)
    (hinv : ∀ i, i < s.calls.length → signal i = false) :
    ∀ i, i < (searchItemStep w now signal q maxR recurse cur depth s item).calls.length →
      signal i = false := by
  intro i hi
  rw [searchItemStep] at hi
  by_cases hg1 : signal s.calls.length = true ∨ maxR ≤ s.results.length
  · rw [if_pos hg1] at hi; exact hinv i hi
  · rw [if_neg hg1] at hi
    have hsig : signal s.calls.length = false := by
      cases h : signal s.calls.length with
      | false => rfl
      | true => exact absurd (Or.inl h) hg1
    by_cases hg2 : childPath cur item.name ∈ s.processed
    · rw [if_pos hg2] at hi; exact hinv i hi
    · rw [if_neg hg2] at hi
      by_cases hf : item.isFolder = true
      · rw [if_pos hf] at hi
        refine hrec item.name _ ?_ i hi
        intro j hj
        rw [recordNameMatch_calls] at hj
        exact hinv j hj
      · rw [if_neg hf] at hi
        refine searchLeafRead_calls_inv w now q item _ _ signal ?_ ?_ i hi
        · rw [recordNameMatch_calls]; exact hsig
        · intro j hj
          rw [recordNameMatch_calls] at hj
          exact hinv j hj

theorem searchRec_results_inv (w : Wire) (now : Nat) (signal : Nat → Bool)
    (q : String) (maxR maxD : Nat) (base : String) :
    ∀ (fuel : Nat) (cur : String) (depth : Nat) (st : SState),
      DepthBelow base cur depth →
      (∀ r ∈ st.results, ∃ dep, dep ≤ maxD + 1 ∧ DepthBelow base r.path dep) →
      ∀ r ∈ (searchRec w now signal q maxR maxD fuel cur depth st).results,
        ∃ dep, dep ≤ maxD + 1 ∧ DepthBelow base r.path dep := by
  intro fuel
  induction fuel with
  | zero => intro cur depth st _ hres; exact hres
  | succ fuel ih =>
    intro cur depth st hcur hres r hr
    rw [searchRec] at hr
    by_cases hs1 : signal st.calls.length = true
    · rw [if_pos hs1] at hr; exact hres r hr
    · rw [if_neg hs1] at hr
      by_cases hs2 : maxR ≤ st.results.length
      · rw [if_pos hs2] at hr; exact hres r hr
      · rw [if_neg hs2] at hr
        by_cases hs3 : maxD < depth
        · rw [if_pos hs3] at hr; exact hres r hr
        · rw [if_neg hs3] at hr
          have hdep : depth ≤ maxD := Nat.not_lt.mp hs3
          rcases hls : listSecretsOp w now cur st.client with ⟨res, cst, cs⟩
          rw [hls] at hr
          cases res with
          | error e => exact hres r hr
          | ok items =>
            refine foldl_inv
              (fun (s2 : SState) => ∀ r2 ∈ s2.results,
                ∃ dep, dep ≤ maxD + 1 ∧ DepthBelow base r2.path dep)
              (searchItemStep w now signal q maxR
                (fun p dep2 s => searchRec w now signal q maxR maxD fuel p dep2 s)
                cur depth)
              ?_ items { st with client := cst, calls := st.calls ++ cs }
              ?_ r hr
            · intro s2 item hinv2
              exact searchItemStep_results_inv w now signal q maxR
                (fun p dep2 s => searchRec w now signal q maxR maxD fuel p dep2 s)
                cur depth
                (fun path => ∃ dep, dep ≤ maxD + 1 ∧ DepthBelow base path dep)
                (fun name => ⟨depth + 1, Nat.succ_le_succ hdep,
                  DepthBelow.step name hcur⟩)
                (fun name s3 hinv3 => ih (childPath cur name) (depth + 1) s3
                  (DepthBelow.step name hcur) hinv3)
                s2 item hinv2
            · exact hres

theorem searchRec_calls_inv (w : Wire) (now : Nat) (signal : Nat → Bool)
    (q : String) (maxR maxD : Nat) :
    ∀ (fuel : Nat) (cur : String) (depth : Nat) (st : SState),
      (∀ i, i < st.calls.length → signal i = false) →
      ∀ i, i < (searchRec w now signal q maxR maxD fuel cur depth st).calls.length →
        signal i = false := by
  intro fuel
  induction fuel with
  | zero => intro cur depth st hres; exact hres
  | succ fuel ih =>
    intro cur depth st hres i hi
    rw [searchRec] at hi
    by_cases hs1 : signal st.calls.length = true
    · rw [if_pos hs1] at hi; exact hres i hi
    · rw [if_neg hs1] at hi
      have hsig : signal st.calls.length = false := by
        cases h : signal st.calls.length with
        | false => rfl
        | true => exact absurd h hs1
      by_cases hs2 : maxR ≤ st.results.length
      · rw [if_pos hs2] at hi; exact hres i hi
      · rw [if_neg hs2] at hi
        by_cases hs3 : maxD < depth
        · rw [if_pos hs3] at hi; exact hres i hi
        · rw [if_neg hs3] at hi
          rcases hls : listSecretsOp w now cur st.client with ⟨res, cst, cs⟩
          rw [hls] at hi
          have hlen : cs.length ≤ 1 := by
            have hfull := listSecretsOp_calls_len w now cur st.client
            rw [hls] at hfull; exact hfull
          have hst1 : ∀ j, j < (st.calls ++ cs).length → signal j = false :=
            calls_append_inv signal st.calls cs hres hsig hlen
          cases res with
          | error e => exact hst1 i hi
          | ok items =>
            refine foldl_inv
              (fun (s2 : SState) => ∀ j, j < s2.calls.length → signal j = false)
              (searchItemStep w now signal q maxR
                (fun p dep2 s => searchRec w now signal q maxR maxD fuel p dep2 s)
                cur depth)
              ?_ items { st with client := cst, calls := st.calls ++ cs }
              ?_ i hi
            · intro s2 item hinv2
              exact searchItemStep_calls_inv w now signal q maxR
                (fun p dep2 s => searchRec w now signal q maxR maxD fuel p dep2 s)
                cur depth
                (fun name s3 hinv3 => ih (childPath cur name) (depth + 1) s3 hinv3)
                s2 item hinv2
            · exact hst1

theorem depthBelow_zero {b p : String} (h : DepthBelow b p 0) : p = b := by
  cases h; rfl

/-- Claim C8, counterexample: with maxDepth = 0 the search returns the
result "x", which sits at depth 1 below the base path and at no depth
at most maxDepth = 0 — the guard `depth > maxDepth` runs before
listing, so children one level beyond the bound still surface. -/
theorem search_depth_cex :
    (searchSecretsOp wDepth 0 sigNone "x" "" 100 0 emptyClient).1 =
      [⟨"x", "x", false⟩] ∧
    ¬ ∃ dep, dep ≤ 0 ∧ DepthBelow "" (⟨"x", "x", false⟩ : SItem).path dep := by
  constructor
  · decide
  · rintro ⟨dep, hdep, hdb⟩
    rw [Nat.le_zero.mp hdep] at hdb
    exact absurd (depthBelow_zero hdb) (by decide)

/-- Claim C8 (amended): every result of
searchSecrets(query, basePath, signal, maxResults, maxDepth) is located
at some depth at most maxDepth + 1 below basePath — one level more than
the claim states, because the depth guard is checked before listing, so
a folder at depth maxDepth is still listed and its children recorded. -/
theorem search_depth_bound_amended (w : Wire) (now : Nat)
    (signal : Nat → Bool) (query basePath : String)
    (maxResults maxDepth : Nat) (cst : ClientSt) :
    ∀ r ∈ (searchSecretsOp w now signal query basePath maxResults maxDepth cst).1,
      ∃ dep, dep ≤ maxDepth + 1 ∧ DepthBelow basePath r.path dep := by
  intro r hr
  have hr2 : r ∈ (searchRec w now signal (lowerStr query) maxResults maxDepth
      (maxDepth + 2) basePath 0 ⟨cst, [], [], []⟩).results :=
    List.take_subset _ _ hr
  exact searchRec_results_inv w now signal (lowerStr query) maxResults maxDepth
    basePath (maxDepth + 2) basePath 0 ⟨cst, [], [], []⟩
    (DepthBelow.refl basePath) (fun r2 h2 => absurd h2 (List.not_mem_nil r2))
    r hr2

/-- Claim C8, witness: the amended depth bound applied to the concrete
one-leaf tree with maxDepth = 0 — the single result is at depth at most
1 below the base. -/
theorem search_depth_bound_amended_witness :
    (⟨"x", "x", false⟩ : SItem) ∈
      (searchSecretsOp wDepth 0 sigNone "x" "" 100 0 emptyClient).1 ∧
    ∃ dep, dep ≤ 0 + 1 ∧ DepthBelow "" (⟨"x", "x", false⟩ : SItem).path dep :=
  ⟨by decide,
    search_depth_bound_amended wDepth 0 sigNone "x" "" 100 0 emptyClient
      ⟨"x", "x", false⟩ (by decide)⟩

/-- Claim C9, counterexample: the abort signal fires while the read of
"leaf" (wire call number 1, issued at instant 1) is in flight — the
signal is clear at instant 1 and set at instant 2 when the read
completes — yet the content-matching result of that in-flight read is
still added: the search returns it instead of discarding it. -/
theorem search_inflight_added_cex :
    sigCex 1 = false ∧ sigCex 2 = true ∧
    (searchSecretsOp wCex 0 sigCex "tok" "" 100 10 emptyClient).2.calls =
      [WireCall.list "/v1/secret/metadata",
       WireCall.readS "/v1/secret/data/leaf"] ∧
    (searchSecretsOp wCex 0 sigCex "tok" "" 100 10 emptyClient).1 =
      [⟨"leaf", "leaf", false⟩] := by
  exact ⟨by decide, by decide, by decide, by decide⟩

/-- Claim C9 (amended): no wire call is ever issued at an instant when
the cancellation signal is set — wire call number i is issued only
after a signal check at instant i found the signal clear — and when the
signal is set before traversal starts, zero wire calls are made and the
empty result is returned.  (Results of calls already in flight at
cancellation are, however, not discarded: see the counterexample.) -/
theorem search_cancellation_amended (w : Wire) (now : Nat)
    (signal : Nat → Bool) (query basePath : String)
    (maxResults maxDepth : Nat) (cst : ClientSt) :
    (∀ i, i < (searchSecretsOp w now signal query basePath maxResults maxDepth
        cst).2.calls.length → signal i = false) ∧
    (signal 0 = true →
      (searchSecretsOp w now signal query basePath maxResults maxDepth cst).1 =
        [] ∧
      (searchSecretsOp w now signal query basePath maxResults maxDepth
        cst).2.calls = []) := by
  constructor
  · intro i hi
    exact searchRec_calls_inv w now signal (lowerStr query) maxResults maxDepth
      (maxDepth + 2) basePath 0 ⟨cst, [], [], []⟩
      (fun j hj => absurd hj (by simp)) i hi
  · intro h0
    have hstop : searchRec w now signal (lowerStr query) maxResults maxDepth
        (maxDepth + 2) basePath 0 ⟨cst, [], [], []⟩ = ⟨cst, [], [], []⟩ := by
      rw [show maxDepth + 2 = Nat.succ (maxDepth + 1) from rfl, searchRec]
      simp [h0]
    have h1 : searchSecretsOp w now signal query basePath maxResults maxDepth
        cst = ((⟨cst, [], [], []⟩ : SState).results.take maxResults,
          ⟨cst, [], [], []⟩) := by
      simp only [searchSecretsOp]
      rw [hstop]
    rw [h1]
    exact ⟨by simp, rfl⟩

/-- Claim C9, witness: the amended cancellation theorem applied to the
always-set signal — the search makes zero wire calls and returns the
empty result. -/
theorem search_cancellation_amended_witness :
    ((fun _ => true) : Nat → Bool) 0 = true ∧
    ((searchSecretsOp wOk 0 (fun _ => true) "q" "" 100 10 emptyClient).1 = [] ∧
     (searchSecretsOp wOk 0 (fun _ => true) "q" "" 100 10
       emptyClient).2.calls = []) :=
  ⟨rfl,
    (search_cancellation_amended wOk 0 (fun _ => true) "q" "" 100 10
      emptyClient).2 rfl⟩

/-- Claim C4, witness: the amended not-found theorem applied to the
bare-404 wire at path "missing" on the empty client (the list branch
takes the empty-result arm). -/
theorem not_found_handling_amended_witness :
    w404plain.list (buildListUrl "missing") = Except.error e404plain ∧
    mapFind (buildCacheKey "list" "missing" emptyClient.ns)
      emptyClient.listC = none ∧
    ((listSecretsOp w404plain 0 "missing" emptyClient).1 =
      (if containsSub (handleError e404plain).message "404" then Except.ok []
       else Except.error (handleError e404plain)) ∧
     (readSecretOp w404plain 0 "missing" emptyClient).1 =
       Except.error (handleError e404plain) ∧
     (writeSecretOp w404plain "missing" [] emptyClient).1 =
       Except.error (handleError e404plain) ∧
     (deleteSecretOp w404plain "missing" emptyClient).1 =
       Except.error (handleError e404plain)) :=
  ⟨rfl, rfl,
    not_found_handling_amended w404plain "missing" [] emptyClient 0 e404plain
      rfl rfl rfl rfl rfl rfl⟩

end VaultNav
